import Mathlib

/-!
Verification of the answer-evaluation and feedback pipeline of the K-Tube
dictation app (src/app.py), shallowly embedded in Lean.

Strings are modelled as lists of characters.  The external morphological
tokenizer (kiwipiepy's Kiwi) and the character diff routine (difflib.ndiff)
are not part of this repository; the embedded functions take them as
parameters, mirroring their role as external collaborators, and concrete
model instances are supplied for evaluation on example inputs.
-/

namespace KTube

/-- Strings are modelled as lists of characters. -/
abbrev Str := List Char

/-- The fixed punctuation set removed by the regex in normalize_text
(src/app.py line 418): period, comma, bang, question mark, semicolon,
colon, double quote, single quote, hyphen, ellipsis. -/
def punctuationChars : Str :=
  ['.', ',', '!', '?', ';', ':', Char.ofNat 34, Char.ofNat 39, '-', '…']

/-- The whitespace characters removed by Python str.strip() (ASCII range). -/
def pyIsSpace (c : Char) : Bool :=
  c = ' ' || c = '\t' || c = '\n' || c = '\r' || c = '\x0b' || c = '\x0c'

/-- Leading-whitespace removal half of Python str.strip(). -/
def pyStripLeft (s : Str) : Str := s.dropWhile pyIsSpace

/-- Trailing-whitespace removal half of Python str.strip(). -/
def pyStripRight (s : Str) : Str := (s.reverse.dropWhile pyIsSpace).reverse

/-- Python str.strip(): remove leading and trailing whitespace. -/
def pyStrip (s : Str) : Str := pyStripRight (pyStripLeft s)

/-- normalize_text (src/app.py lines 417-418): delete every character of
the punctuation set, then strip surrounding whitespace. -/
def normalize_text (s : Str) : Str :=
  pyStrip (s.filter (fun c => !punctuationChars.contains c))

/-- Python str.split() with no arguments: split on whitespace runs,
dropping empty pieces.  `acc` holds the characters of the current word,
reversed. -/
def splitWSAux : Str → Str → List Str
  | [], acc => if acc.isEmpty then [] else [acc.reverse]
  | c :: rest, acc =>
    if pyIsSpace c then
      if acc.isEmpty then splitWSAux rest [] else acc.reverse :: splitWSAux rest []
    else splitWSAux rest (c :: acc)

/-- Python str.split() with no arguments. -/
def splitWS (s : Str) : List Str := splitWSAux s []

/-- A morpheme token: surface form and grammatical tag, the shape of the
records returned by the external tokenizer (kiwi.tokenize). -/
structure Token where
  form : Str
  tag : Str
deriving DecidableEq

/-- The external morphological tokenizer, taken as a parameter. -/
abbrev Tokenizer := Str → List Token

/-- The external character-level diff routine (difflib.ndiff), taken as a
parameter: it returns one (tag, character) pair per diff line, tags being
a blank for unchanged, a minus for deleted, a plus for inserted, and
possibly other tags (hint lines) that the renderer ignores. -/
abbrev NDiff := Str → Str → List (Char × Char)

/-- The guarded tokenization of the user word in analyze_wrong_morphemes
(src/app.py line 94): an empty (falsy) string yields no tokens. -/
def userTokensOf (tokenize : Tokenizer) (userWord : Str) : List Token :=
  if userWord.isEmpty then [] else tokenize userWord

/-- Python tag.startswith of the particle initial used at src/app.py
line 97. -/
def tagStartsWithJ (tag : Str) : Bool :=
  match tag with
  | 'J' :: _ => true
  | _ => false

/-- analyze_wrong_morphemes (src/app.py lines 91-98): the surface forms of
the expected word's tokens that are absent from the user's token forms,
excluding particle-tagged tokens. -/
def analyze_wrong_morphemes (tokenize : Tokenizer) (correctWord userWord : Str) :
    List Str :=
  let correctTokens := tokenize correctWord
  let userForms := (userTokensOf tokenize userWord).map Token.form
  (correctTokens.filter
      (fun t => decide (t.form ∉ userForms) && !tagStartsWithJ t.tag)).map Token.form

/-- The red strikethrough span emitted for a deleted character
(src/app.py line 108). -/
def redSpan (c : Char) : Str :=
  "<span style=\x27color:red; text-decoration:line-through;\x27>".data ++
    [c] ++ "</span>".data

/-- The green bold span emitted for an inserted character
(src/app.py line 110). -/
def greenSpan (c : Char) : Str :=
  "<span style=\x27color:green; font-weight:bold;\x27>".data ++ [c] ++ "</span>".data

/-- generate_diff_html (src/app.py lines 100-111): render each diff line
of ndiff(user_input, correct) as raw character, red span, or green span;
lines with any other tag are dropped. -/
def generate_diff_html (ndiff : NDiff) (correct userInput : Str) : Str :=
  (ndiff userInput correct).foldl
    (fun acc s =>
      if s.1 = ' ' then acc ++ [s.2]
      else if s.1 = '-' then acc ++ redSpan s.2
      else if s.1 = '+' then acc ++ greenSpan s.2
      else acc)
    []

/-- A concrete model instance of the external tokenizer, reflecting the
standard Kiwi analyses of the example words used in the spec; any other
word is treated as a single noun token. -/
def modelTokenize : Tokenizer := fun s =>
  if s = "맛있다".data then [⟨"맛있".data, "VA".data⟩, ⟨"다".data, "EF".data⟩]
  else if s = "맛없다".data then [⟨"맛없".data, "VA".data⟩, ⟨"다".data, "EF".data⟩]
  else if s = "맛있어".data then [⟨"맛있".data, "VA".data⟩, ⟨"어".data, "EF".data⟩]
  else if s = "봐봐".data then
    [⟨"보".data, "VV".data⟩, ⟨"아".data, "EC".data⟩,
     ⟨"보".data, "VV".data⟩, ⟨"아".data, "EC".data⟩]
  else [⟨s, "NNG".data⟩]

/-- A concrete model instance of the external diff routine: delete every
character of the first argument and insert every character of the second. -/
def modelNdiff : NDiff := fun userInput correct =>
  userInput.map (fun c => ('-', c)) ++ correct.map (fun c => ('+', c))

/-- The gray span emitted for a matching blank (src/app.py line 440),
including its trailing space. -/
def graySpan (c : Str) : Str :=
  "<span style=\x27color:gray;\x27>".data ++ c ++ "</span> ".data

/-- The outcome of one evaluation pass: the correctness flag, the diff
markup and the raw wrong-word list, mirroring is_correct, diff_html and
wrong_words_list in src/app.py lines 420-468. -/
structure EvalResult where
  isCorrect : Bool
  diffHtml : Str
  wrongWords : List Str
deriving DecidableEq

/-- The per-slot loop of the easy-mode evaluation (src/app.py lines
434-440): for each (expected, user) pair, accumulate diff markup and
wrong words left to right; on a mismatching slot the missing morphemes
are added, falling back to the expected word when none are flagged. -/
def easySlots (tokenize : Tokenizer) (ndiff : NDiff) :
    List (Str × Str) → Str × List Str
  | [] => ([], [])
  | (c, u) :: rest =>
    let r := easySlots tokenize ndiff rest
    if c ≠ u then
      (generate_diff_html ndiff c u ++ " ".data ++ r.1,
       (if (analyze_wrong_morphemes tokenize c u).isEmpty then [c]
        else analyze_wrong_morphemes tokenize c u) ++ r.2)
    else (graySpan c ++ r.1, r.2)

/-- The easy-mode (blank) evaluation (src/app.py lines 423-444):
normalize the whitespace-split user tokens and the expected blank
answers, compare the sequences for correctness, and on mismatch run the
per-slot loop over the answers zipped with the user tokens padded by
empty strings. -/
def easyEval (tokenize : Tokenizer) (ndiff : NDiff)
    (blankAnswers : List Str) (userInput : Str) : EvalResult :=
  let userWords := (splitWS (pyStrip userInput)).map normalize_text
  let normalizedAnswers := blankAnswers.map normalize_text
  if userWords = normalizedAnswers then ⟨true, [], []⟩
  else
    let slots := normalizedAnswers.zip
      (userWords ++ List.replicate normalizedAnswers.length [])
    ⟨false, (easySlots tokenize ndiff slots).1, (easySlots tokenize ndiff slots).2⟩

/-- The hard-mode (full dictation) evaluation (src/app.py lines 459-468):
compare the normalized user input against the normalized original text;
on mismatch produce diff markup over the full strings, with no
wrong-word extraction. -/
def hardEval (ndiff : NDiff) (originalText userInput : Str) : EvalResult :=
  if normalize_text userInput = normalize_text originalText then ⟨true, [], []⟩
  else ⟨false, generate_diff_html ndiff originalText userInput, []⟩

/-- Does the first list occur at the very start of the second? -/
def beginsWith : Str → Str → Bool
  | [], _ => true
  | _ :: _, [] => false
  | a :: as, b :: bs => a = b && beginsWith as bs

/-- Does the needle occur as a contiguous substring of the haystack? -/
def containsSub (needle : Str) : Str → Bool
  | [] => needle.isEmpty
  | c :: rest => beginsWith needle (c :: rest) || containsSub needle rest

/-- The next-button handler (src/app.py lines 362-367): the index is
incremented only while strictly below N-1. -/
def nextIndex (n i : Nat) : Nat := if i < n - 1 then i + 1 else i

/-- The prev-button handler (src/app.py lines 350-355): the index is
decremented only while strictly positive. -/
def prevIndex (i : Nat) : Nat := if 0 < i then i - 1 else i

/-- The restart handler of the completed branch (src/app.py lines
327-331): the index is reset to 0. -/
def restartIndex : Nat := 0

/-- Python ", ".join and " ".join: join words with a separator. -/
def joinSep (sep : Str) : List Str → Str
  | [] => []
  | [w] => w
  | w :: ws => w ++ sep ++ joinSep sep ws

/-- The wrong_words field of an attempt record (src/app.py line 480):
the first three raw entries joined, or a dash when the list is empty. -/
def recordWrongWords (wrongWordsList : List Str) : Str :=
  if wrongWordsList.isEmpty then "-".data
  else joinSep ", ".data (wrongWordsList.take 3)

/-- The blank_words field of an attempt record (src/app.py line 479). -/
def recordBlankWords (blankAnswers : List Str) : Str :=
  if blankAnswers.isEmpty then "-".data else joinSep ", ".data blankAnswers

/-- An attempt record (src/app.py lines 472-482); the date, video title
and timestamp are computed from ambient data outside the evaluator and
enter the model as parameters. -/
structure AttemptRecord where
  date : Str
  videoTitle : Str
  timestamp : Str
  originalText : Str
  userInput : Str
  isCorrectMark : Str
  blankWords : Str
  wrongWords : Str
  diffHtml : Str

/-- The per-segment check state stored on submit (src/app.py lines
403-407). -/
structure CheckState where
  checked : Bool
  userInput : Str

/-- The session state relevant to the ledger: the per-segment check
states and the attempt history. -/
structure SessionState where
  checkStates : Nat → Option CheckState
  history : List AttemptRecord

/-- Build the attempt record appended on submit (src/app.py lines
472-482). -/
def mkRecord (dateStr videoTitle timestampStr originalText userInput : Str)
    (blankAnswers : List Str) (r : EvalResult) : AttemptRecord :=
  { date := dateStr, videoTitle := videoTitle, timestamp := timestampStr,
    originalText := originalText, userInput := userInput,
    isCorrectMark := if r.isCorrect then "✓".data else "✗".data,
    blankWords := recordBlankWords blankAnswers,
    wrongWords := recordWrongWords r.wrongWords,
    diffHtml := if r.isCorrect then [] else r.diffHtml }

/-- One pass over the answer-check region of tab_study (src/app.py lines
402-483): a submit stores the check state for the current segment;
whenever a checked state exists the evaluation is (re)computed from the
persisted input, and a new AttemptRecord is appended exactly when the
pass was triggered by the submit button. -/
def studyPass (tokenize : Tokenizer) (ndiff : NDiff) (difficultyEasy : Bool)
    (blankAnswers : List Str) (originalText : Str)
    (dateStr videoTitle timestampStr : Str)
    (submitBtn : Bool) (userInput : Str) (idx : Nat) (s : SessionState) :
    SessionState :=
  let cs : Nat → Option CheckState :=
    if submitBtn then
      fun j => if j = idx then some ⟨true, userInput⟩ else s.checkStates j
    else s.checkStates
  match cs idx with
  | none => { s with checkStates := cs }
  | some st =>
    if st.checked then
      let input := if submitBtn then userInput else st.userInput
      let r := if difficultyEasy then easyEval tokenize ndiff blankAnswers input
               else hardEval ndiff originalText input
      if submitBtn then
        { checkStates := cs,
          history := s.history ++
            [mkRecord dateStr videoTitle timestampStr originalText input
              blankAnswers r] }
      else { s with checkStates := cs }
    else { s with checkStates := cs }

/-- The dictionary-lookup loop over the wrong-word list (src/app.py lines
449-456): walk the list, skipping words already displayed; `seen` plays
the role of the displayed set. -/
def dedupKeep : List Str → List Str → List Str
  | [], _ => []
  | w :: ws, seen =>
    if w ∈ seen then dedupKeep ws seen else w :: dedupKeep ws (w :: seen)

/-- The sequence of words actually looked up in the dictionary: the loop
runs over the first three raw entries only. -/
def lookupWords (wrongWordsList : List Str) : List Str :=
  dedupKeep (wrongWordsList.take 3) []

/-- One optional (digits)(unit) group of the duration regex: it consumes
input iff a nonempty maximal digit run is followed directly by the unit
letter; otherwise the group matches empty and the input is unchanged. -/
def parseGroup (unit : Char) (s : Str) : Option Str × Str :=
  let ds := s.takeWhile Char.isDigit
  match s.dropWhile Char.isDigit with
  | u :: rest => if !ds.isEmpty && u = unit then (some ds, rest) else (none, s)
  | [] => (none, s)

/-- re.search of the duration pattern (src/app.py line 245): every part
after the literal PT is optional, so the pattern matches at the first
occurrence of PT; returns the input remaining after that occurrence. -/
def searchPT : Str → Option Str
  | [] => none
  | c :: rest =>
    if beginsWith "PT".data (c :: rest) then some (rest.drop 1)
    else searchPT rest

/-- The decimal digit character for a value below ten. -/
def digitChar (n : Nat) : Char := Char.ofNat (48 + n)

/-- Decimal rendering of a natural number, fuel-structured so that it
reduces by evaluation. -/
def natToStrAux : Nat → Nat → Str
  | 0, _ => []
  | fuel + 1, n =>
    if n < 10 then [digitChar n]
    else natToStrAux fuel (n / 10) ++ [digitChar (n % 10)]

/-- Decimal rendering of a natural number. -/
def natToStr (n : Nat) : Str := natToStrAux (n + 1) n

/-- The Python format {x:02d}: zero-pad to at least two digits. -/
def pad2 (n : Nat) : Str :=
  if (natToStr n).length < 2 then '0' :: natToStr n else natToStr n

/-- Python int() on a digit string. -/
def strToNat (s : Str) : Nat :=
  s.foldl (fun a c => a * 10 + (c.toNat - 48)) 0

/-- parse_duration (src/app.py lines 242-255): search for the duration
pattern, default absent groups to "0", and render h:mm:ss when the hour
value is positive, else m:ss; "N/A" when the pattern does not match. -/
def parse_duration (s : Str) : Str :=
  match searchPT s with
  | none => "N/A".data
  | some rest =>
    let g1 := parseGroup 'H' rest
    let g2 := parseGroup 'M' g1.2
    let g3 := parseGroup 'S' g2.2
    let h := g1.1.getD "0".data
    let m := g2.1.getD "0".data
    let sec := g3.1.getD "0".data
    if strToNat h > 0 then
      h ++ (':' :: (pad2 (strToNat m) ++ (':' :: pad2 (strToNat sec))))
    else m ++ (':' :: pad2 (strToNat sec))

/-- An ISO-8601 PT-duration validator written from the claim's wording
(the source has no such whole-string check): the entire string must be PT
followed by optional hour/minute/second components, at least one being
present. -/
def isoValidPT (s : Str) : Bool :=
  match s with
  | 'P' :: 'T' :: rest =>
    let g1 := parseGroup 'H' rest
    let g2 := parseGroup 'M' g1.2
    let g3 := parseGroup 'S' g2.2
    g3.2.isEmpty && (g1.1.isSome || g2.1.isSome || g3.1.isSome)
  | _ => false

/-- The blank placeholder token (src/app.py line 383). -/
def placeholder : Str := "____".data

/-- Eligible blank candidates: whitespace tokens of length at least two
(src/app.py line 375). -/
def candidateWords (words : List Str) : List Str :=
  words.filter (fun w => decide (2 ≤ w.length))

/-- The masking loop of blank generation (src/app.py lines 379-386): walk
the words, masking a word when it is among the sampled blank words and
has not been blanked yet; `acc` is actual_blanks built so far. -/
def maskLoop (blankWords : List Str) : List Str → List Str → List Str × List Str
  | [], acc => ([], acc)
  | w :: ws, acc =>
    if w ∈ blankWords ∧ w ∉ acc then
      let r := maskLoop blankWords ws (acc ++ [w])
      (placeholder :: r.1, r.2)
    else
      let r := maskLoop blankWords ws acc
      (w :: r.1, r.2)

/-- Blank generation for a sampled list of blank words: returns
(masked_words, actual_blanks) as at src/app.py lines 379-388. -/
def generateBlanks (words blankWords : List Str) : List Str × List Str :=
  maskLoop blankWords words []

/-- The words newly appended to actual_blanks by the masking loop, given
the words already seen. -/
def newBlanks (blankWords : List Str) : List Str → List Str → List Str
  | [], _ => []
  | w :: ws, seen =>
    if w ∈ blankWords ∧ w ∉ seen then w :: newBlanks blankWords ws (seen ++ [w])
    else newBlanks blankWords ws seen

/-- Substitute the answers, in order, for the placeholder tokens of the
masked word sequence. -/
def fillBlanks : List Str → List Str → List Str
  | [], _ => []
  | w :: ws, answers =>
    if w = placeholder then
      match answers with
      | a :: rest => a :: fillBlanks ws rest
      | [] => w :: fillBlanks ws []
    else w :: fillBlanks ws answers

theorem dropWhile_nil_or_head {α : Type} (p : α → Bool) (l : List α) :
    l.dropWhile p = [] ∨ ∃ a t, l.dropWhile p = a :: t ∧ p a = false := by
  induction l with
  | nil => exact Or.inl rfl
  | cons x xs ih =>
    by_cases h : p x
    · simpa [List.dropWhile_cons, h] using ih
    · exact Or.inr ⟨x, xs, by simp [List.dropWhile_cons, h], by simp [h]⟩

theorem dropWhile_idem {α : Type} (p : α → Bool) (l : List α) :
    (l.dropWhile p).dropWhile p = l.dropWhile p := by
  rcases dropWhile_nil_or_head p l with h | ⟨a, t, h, hpa⟩ <;> rw [h]
  · rfl
  · simp [List.dropWhile_cons, hpa]

theorem dropWhile_cons_of_neg {α : Type} {p : α → Bool} {a : α} (l : List α)
    (h : p a = false) : (a :: l).dropWhile p = a :: l := by
  simp [List.dropWhile_cons, h]

theorem dropWhile_append_last {α : Type} {p : α → Bool} {a : α}
    (h : p a = false) (xs : List α) :
    ∃ ys, (xs ++ [a]).dropWhile p = ys ++ [a] := by
  induction xs with
  | nil => exact ⟨[], by simp [List.dropWhile_cons, h]⟩
  | cons x xs ih =>
    by_cases hx : p x
    · simpa [List.dropWhile_cons, hx] using ih
    · exact ⟨x :: xs, by simp [List.dropWhile_cons, hx]⟩

theorem mem_dropWhile {α : Type} {p : α → Bool} {a : α} :
    ∀ {l : List α}, a ∈ l.dropWhile p → a ∈ l := by
  intro l
  induction l with
  | nil => simp
  | cons x xs ih =>
    by_cases hx : p x
    · rw [List.dropWhile_cons]
      simp only [hx, if_true]
      intro h
      exact List.mem_cons_of_mem x (ih h)
    · rw [List.dropWhile_cons]
      simp [hx]

theorem mem_pyStrip {a : Char} {s : Str} (h : a ∈ pyStrip s) : a ∈ s := by
  unfold pyStrip pyStripRight pyStripLeft at h
  rw [List.mem_reverse] at h
  have h2 := mem_dropWhile h
  rw [List.mem_reverse] at h2
  exact mem_dropWhile h2

theorem pyStripRight_idem (s : Str) :
    pyStripRight (pyStripRight s) = pyStripRight s := by
  unfold pyStripRight
  rw [List.reverse_reverse, dropWhile_idem]

theorem pyStripLeft_pyStrip (s : Str) :
    pyStripLeft (pyStrip s) = pyStrip s := by
  unfold pyStrip pyStripRight pyStripLeft
  rcases dropWhile_nil_or_head pyIsSpace s with h | ⟨a, t, h, hpa⟩
  · rw [h]; simp
  · rw [h, List.reverse_cons]
    obtain ⟨ys, hy⟩ := dropWhile_append_last hpa t.reverse
    rw [hy, List.reverse_append]
    exact dropWhile_cons_of_neg _ hpa

theorem pyStrip_idem (s : Str) : pyStrip (pyStrip s) = pyStrip s := by
  have h1 : pyStrip (pyStrip s) = pyStripRight (pyStrip s) := by
    show pyStripRight (pyStripLeft (pyStrip s)) = _
    rw [pyStripLeft_pyStrip]
  rw [h1]
  show pyStripRight (pyStripRight (pyStripLeft s)) = _
  rw [pyStripRight_idem]
  rfl

/-- C10: the text normalizer is idempotent: normalizing an already
normalized string returns it unchanged, for every string. -/
theorem normalize_text_idempotent (s : Str) :
    normalize_text (normalize_text s) = normalize_text s := by
  unfold normalize_text
  have hfix :
      (pyStrip (s.filter (fun c => !punctuationChars.contains c))).filter
          (fun c => !punctuationChars.contains c) =
        pyStrip (s.filter (fun c => !punctuationChars.contains c)) := by
    apply List.filter_eq_self.mpr
    intro a ha
    exact (List.mem_filter.mp (mem_pyStrip ha)).2
  rw [hfix, pyStrip_idem]

/-- C7 (amended): analyze_wrong_morphemes returns, in the expected word's
token order, the surface form of every token whose form is absent from the
actual word's token forms and whose tag is not particle-class; one entry
per token occurrence (repeated forms appear with multiplicity, not once per
distinct form).  If the actual word is empty, all non-particle token forms
of the expected word are returned, again with multiplicity. -/
theorem analyze_wrong_morphemes_spec (tokenize : Tokenizer) (c u : Str) :
    (∀ f, f ∈ analyze_wrong_morphemes tokenize c u ↔
      ∃ t, t ∈ tokenize c ∧ t.form = f ∧
        f ∉ (userTokensOf tokenize u).map Token.form ∧
        tagStartsWithJ t.tag = false) ∧
    List.Sublist (analyze_wrong_morphemes tokenize c u)
      ((tokenize c).map Token.form) ∧
    (u = [] → analyze_wrong_morphemes tokenize c u =
      ((tokenize c).filter (fun t => !tagStartsWithJ t.tag)).map Token.form) := by
  refine ⟨?_, ?_, ?_⟩
  · intro f
    simp only [analyze_wrong_morphemes, List.mem_map, List.mem_filter,
      Bool.and_eq_true, decide_eq_true_eq, Bool.not_eq_true']
    constructor
    · rintro ⟨t, ⟨ht, hnm, hj⟩, rfl⟩
      exact ⟨t, ht, rfl, hnm, hj⟩
    · rintro ⟨t, ht, rfl, hnm, hj⟩
      exact ⟨t, ⟨ht, hnm, hj⟩, rfl⟩
  · exact List.Sublist.map _ (List.filter_sublist _)
  · rintro rfl
    simp [analyze_wrong_morphemes, userTokensOf]

/-- C7 witness: the amended characterization applied at a concrete input,
discharging the empty-actual hypothesis. -/
theorem analyze_wrong_morphemes_spec_witness :
    analyze_wrong_morphemes modelTokenize "맛있다".data [] =
      ((modelTokenize "맛있다".data).filter
          (fun t => !tagStartsWithJ t.tag)).map Token.form :=
  (analyze_wrong_morphemes_spec modelTokenize "맛있다".data []).2.2 rfl

/-- C7 counterexample: for an expected word that tokenizes into repeated
morpheme forms and an empty actual word, the returned list repeats forms,
so it is not a list of distinct surface forms as the claim states. -/
theorem analyze_wrong_morphemes_not_distinct :
    analyze_wrong_morphemes modelTokenize "봐봐".data [] =
      ["보".data, "아".data, "보".data, "아".data] ∧
    ¬ (analyze_wrong_morphemes modelTokenize "봐봐".data []).Nodup := by
  constructor
  · decide
  · decide

theorem zip_append_take_of_le {α β : Type} :
    ∀ (A : List α) (U : List β) (pad : List β), A.length ≤ U.length →
      A.zip (U ++ pad) = A.zip (U.take A.length)
  | [], _, _, _ => by simp
  | a :: as, [], _, h => by simp at h
  | a :: as, u :: us, pad, h => by
    simp only [List.cons_append, List.zip_cons_cons, List.length_cons,
      List.take_succ_cons]
    rw [zip_append_take_of_le as us pad (by simpa using h)]

/-- C2: in blank mode the answer is judged correct iff the sequence of
normalized whitespace-split user tokens equals the sequence of normalized
expected blank answers; for expected blanks [사과, 맛있다] the input
"사과 맛있다" is correct, and "사과 맛없다" is incorrect with a wrong-word
list containing 맛있, a morpheme form of 맛있다 that does not occur in
맛없다 (examples evaluated with the model tokenizer and diff instances). -/
theorem easy_mode_evaluation (tokenize : Tokenizer) (ndiff : NDiff) :
    (∀ blankAnswers userInput,
      (easyEval tokenize ndiff blankAnswers userInput).isCorrect = true ↔
        (splitWS (pyStrip userInput)).map normalize_text =
          blankAnswers.map normalize_text) ∧
    (easyEval modelTokenize modelNdiff ["사과".data, "맛있다".data]
        "사과 맛있다".data).isCorrect = true ∧
    (easyEval modelTokenize modelNdiff ["사과".data, "맛있다".data]
        "사과 맛없다".data).isCorrect = false ∧
    "맛있".data ∈ (easyEval modelTokenize modelNdiff
        ["사과".data, "맛있다".data] "사과 맛없다".data).wrongWords ∧
    "맛있".data ∈ (modelTokenize "맛있다".data).map Token.form ∧
    containsSub "맛있".data "맛없다".data = false := by
  refine ⟨?_, by decide, by decide, by decide, by decide, by decide⟩
  intro blankAnswers userInput
  unfold easyEval
  by_cases h : (splitWS (pyStrip userInput)).map normalize_text =
      blankAnswers.map normalize_text
  · simp [h]
  · simp [h]

/-- C3: in full mode the answer is judged correct iff the normalized user
input equals the normalized expected sentence; on mismatch the diff
markup is produced over the full strings and the wrong-word list stays
empty; input "안녕하세요" against expected "안녕하세요." is correct. -/
theorem full_mode_evaluation (ndiff : NDiff) (originalText userInput : Str) :
    ((hardEval ndiff originalText userInput).isCorrect = true ↔
      normalize_text userInput = normalize_text originalText) ∧
    (normalize_text userInput ≠ normalize_text originalText →
      (hardEval ndiff originalText userInput).diffHtml =
        generate_diff_html ndiff originalText userInput ∧
      (hardEval ndiff originalText userInput).wrongWords = []) ∧
    (hardEval ndiff "안녕하세요.".data "안녕하세요".data).isCorrect = true := by
  have hex : normalize_text "안녕하세요".data = normalize_text "안녕하세요.".data := by
    decide
  refine ⟨?_, ?_, by simp [hardEval, hex]⟩
  · by_cases h : normalize_text userInput = normalize_text originalText
    · simp [hardEval, h]
    · simp [hardEval, h]
  · intro h
    simp [hardEval, h]

/-- C3 witness: the mismatch branch of full_mode_evaluation applied at a
concrete mismatching input. -/
theorem full_mode_evaluation_witness :
    normalize_text "a".data ≠ normalize_text "b".data ∧
    ((hardEval modelNdiff "b".data "a".data).diffHtml =
      generate_diff_html modelNdiff "b".data "a".data ∧
    (hardEval modelNdiff "b".data "a".data).wrongWords = []) :=
  ⟨by decide, (full_mode_evaluation modelNdiff "b".data "a".data).2.1 (by decide)⟩

/-- C9: in blank mode, when the whitespace-split user input has more
tokens than there are expected blank answers, the answer is always
incorrect, and the surplus tokens are ignored entirely: the diff markup
and wrong-word list equal those computed from the answers zipped with
only the first |answers| user tokens. -/
theorem easy_mode_surplus_tokens (tokenize : Tokenizer) (ndiff : NDiff)
    (blankAnswers : List Str) (userInput : Str)
    (h : blankAnswers.length < (splitWS (pyStrip userInput)).length) :
    (easyEval tokenize ndiff blankAnswers userInput).isCorrect = false ∧
    (easyEval tokenize ndiff blankAnswers userInput).diffHtml =
      (easySlots tokenize ndiff ((blankAnswers.map normalize_text).zip
        (((splitWS (pyStrip userInput)).map normalize_text).take
          blankAnswers.length))).1 ∧
    (easyEval tokenize ndiff blankAnswers userInput).wrongWords =
      (easySlots tokenize ndiff ((blankAnswers.map normalize_text).zip
        (((splitWS (pyStrip userInput)).map normalize_text).take
          blankAnswers.length))).2 := by
  have hlen : (blankAnswers.map normalize_text).length <
      ((splitWS (pyStrip userInput)).map normalize_text).length := by
    simpa using h
  have hne : ((splitWS (pyStrip userInput)).map normalize_text) ≠
      blankAnswers.map normalize_text := by
    intro he
    rw [he] at hlen
    exact absurd hlen (lt_irrefl _)
  have hzip := zip_append_take_of_le (blankAnswers.map normalize_text)
    ((splitWS (pyStrip userInput)).map normalize_text)
    (List.replicate ((blankAnswers.map normalize_text)).length ([] : Str))
    (le_of_lt hlen)
  unfold easyEval
  simp only [if_neg hne, hzip]
  simp only [List.length_map]
  exact ⟨trivial, trivial, trivial⟩

/-- C9 witness: the surplus-token theorem applied at a concrete input with
two user tokens against a single expected blank. -/
theorem easy_mode_surplus_tokens_witness :
    (["아".data] : List Str).length < (splitWS (pyStrip "너 나".data)).length ∧
    (easyEval modelTokenize modelNdiff ["아".data] "너 나".data).isCorrect = false :=
  ⟨by decide,
   (easy_mode_surplus_tokens modelTokenize modelNdiff ["아".data] "너 나".data
      (by decide)).1⟩

/-- C5 (amended): the next transition advances the index from i to i+1
only while i+1 < N; at i = N-1 it is a no-op, so the index never leaves
[0, N) via next and the terminal index N is unreachable through it;
restart resets the index to 0. -/
theorem navigator_next_and_restart (n i : Nat) :
    (i + 1 < n → nextIndex n i = i + 1) ∧
    (i = n - 1 → nextIndex n i = i) ∧
    (i < n → nextIndex n i < n) ∧
    restartIndex = 0 := by
  refine ⟨?_, ?_, ?_, rfl⟩ <;> intro h <;> unfold nextIndex <;> split <;> omega

/-- C5 witness: the transition facts applied at N = 3, i = 1 and i = 2. -/
theorem navigator_next_and_restart_witness :
    (1 + 1 < 3 ∧ nextIndex 3 1 = 1 + 1) ∧ (2 = 3 - 1 ∧ nextIndex 3 2 = 2) :=
  ⟨⟨by decide, (navigator_next_and_restart 3 1).1 (by decide)⟩,
   ⟨by decide, (navigator_next_and_restart 3 2).2.1 (by decide)⟩⟩

/-- C5 counterexample: with N = 2 segments, at index i = N-1 = 1 the next
transition leaves the index at 1; it does not move to the terminal index
2 as the claim states. -/
theorem navigator_next_stuck_at_last :
    nextIndex 2 1 = 1 ∧ nextIndex 2 1 ≠ 2 := by
  exact ⟨by decide, by decide⟩

/-- C8: exactly one AttemptRecord is appended per submit event: a pass
with the submit button pressed appends one record to the history, and a
re-render pass without a submit leaves the history length unchanged. -/
theorem ledger_append_exactly_once (tokenize : Tokenizer) (ndiff : NDiff)
    (difficultyEasy : Bool) (blankAnswers : List Str)
    (originalText dateStr videoTitle timestampStr userInput : Str)
    (idx : Nat) (s : SessionState) :
    ((studyPass tokenize ndiff difficultyEasy blankAnswers originalText
        dateStr videoTitle timestampStr true userInput idx s).history.length =
      s.history.length + 1) ∧
    ((studyPass tokenize ndiff difficultyEasy blankAnswers originalText
        dateStr videoTitle timestampStr false userInput idx s).history.length =
      s.history.length) := by
  constructor
  · simp [studyPass]
  · unfold studyPass
    cases h : s.checkStates idx with
    | none => simp [h]
    | some st => cases hc : st.checked <;> simp [h, hc]

/-- C4 helper: membership in the displayed-word loop output. -/
theorem dedupKeep_mem (w : Str) :
    ∀ (xs seen : List Str), w ∈ dedupKeep xs seen ↔ (w ∈ xs ∧ w ∉ seen) := by
  intro xs
  induction xs with
  | nil => intro seen; simp [dedupKeep]
  | cons x ys ih =>
    intro seen
    by_cases hx : x ∈ seen
    · by_cases hw : w = x
      · subst hw
        simp [dedupKeep, hx, ih]
      · simp only [dedupKeep, if_pos hx, ih, List.mem_cons]
        constructor
        · rintro ⟨h1, h2⟩; exact ⟨Or.inr h1, h2⟩
        · rintro ⟨h1 | h1, h2⟩
          · exact absurd h1 hw
          · exact ⟨h1, h2⟩
    · by_cases hw : w = x
      · subst hw
        simp [dedupKeep, hx]
      · simp only [dedupKeep, if_neg hx, List.mem_cons, ih]
        constructor
        · rintro (h | ⟨h1, h2⟩)
          · exact absurd h hw
          · exact ⟨Or.inr h1, fun hs => h2 (Or.inr hs)⟩
        · rintro ⟨h1 | h1, h2⟩
          · exact absurd h1 hw
          · exact Or.inr ⟨h1, fun hs => hs.elim hw h2⟩

/-- C4 helper: the displayed-word loop output is a sublist of its input. -/
theorem dedupKeep_sublist :
    ∀ (xs seen : List Str), List.Sublist (dedupKeep xs seen) xs := by
  intro xs
  induction xs with
  | nil => intro seen; simp [dedupKeep]
  | cons x ys ih =>
    intro seen
    by_cases hx : x ∈ seen
    · simpa [dedupKeep, hx] using List.Sublist.cons x (ih seen)
    · simpa [dedupKeep, hx] using List.Sublist.cons₂ x (ih (x :: seen))

/-- C4 helper: the displayed-word loop never repeats a word. -/
theorem dedupKeep_nodup :
    ∀ (xs seen : List Str), (dedupKeep xs seen).Nodup := by
  intro xs
  induction xs with
  | nil => intro seen; simp [dedupKeep]
  | cons x ys ih =>
    intro seen
    by_cases hx : x ∈ seen
    · simpa [dedupKeep, hx] using ih seen
    · simp only [dedupKeep, if_neg hx, List.nodup_cons]
      refine ⟨fun hmem => ?_, ih (x :: seen)⟩
      exact ((dedupKeep_mem x ys (x :: seen)).mp hmem).2 (List.mem_cons_self x seen)

/-- C4 (amended): the words looked up in the dictionary are the
de-duplication (first-occurrence order) of the FIRST THREE raw wrong-word
entries: a duplicate-free sublist of take 3 with the same members; and
the attempt record stores the first three raw entries verbatim, joined,
without de-duplication. -/
theorem wrong_word_lookup_spec (l : List Str) :
    (lookupWords l).Nodup ∧
    List.Sublist (lookupWords l) (l.take 3) ∧
    (∀ w, w ∈ lookupWords l ↔ w ∈ l.take 3) ∧
    (l ≠ [] → recordWrongWords l = joinSep ", ".data (l.take 3)) := by
  refine ⟨dedupKeep_nodup _ _, dedupKeep_sublist _ _, ?_, ?_⟩
  · intro w
    rw [lookupWords, dedupKeep_mem]
    simp
  · intro h
    cases l with
    | nil => exact absurd rfl h
    | cons x xs => rfl

/-- C4 witness: the record field for a concrete nonempty wrong-word
list. -/
theorem wrong_word_lookup_spec_witness :
    ((["가".data] : List Str) ≠ []) ∧
    recordWrongWords ["가".data] = joinSep ", ".data (["가".data].take 3) :=
  ⟨by decide, (wrong_word_lookup_spec ["가".data]).2.2.2 (by decide)⟩

/-- C4 counterexample: a blank-mode evaluation producing the raw
wrong-word list [맛있, 다, 맛있, 어]: the looked-up words are the
de-duplication of the first three raw entries ([맛있, 다]), not the first
three distinct entries of the raw list ([맛있, 다, 어]); and the attempt
record stores the first three raw entries with the duplicate kept. -/
theorem wrong_word_lookup_truncates_before_dedup :
    (easyEval modelTokenize modelNdiff ["맛있다".data, "맛있어".data]
        "너 나".data).wrongWords =
      ["맛있".data, "다".data, "맛있".data, "어".data] ∧
    lookupWords ["맛있".data, "다".data, "맛있".data, "어".data] =
      ["맛있".data, "다".data] ∧
    (dedupKeep ["맛있".data, "다".data, "맛있".data, "어".data] []).take 3 =
      ["맛있".data, "다".data, "어".data] ∧
    lookupWords ["맛있".data, "다".data, "맛있".data, "어".data] ≠
      (dedupKeep ["맛있".data, "다".data, "맛있".data, "어".data] []).take 3 ∧
    recordWrongWords ["맛있".data, "다".data, "맛있".data, "어".data] =
      joinSep ", ".data ["맛있".data, "다".data, "맛있".data] := by
  refine ⟨by decide, by decide, by decide, by decide, by decide⟩

/-- C6 helper: the regex search fails exactly when PT does not occur as a
substring. -/
theorem searchPT_none_iff (s : Str) :
    searchPT s = none ↔ containsSub "PT".data s = false := by
  induction s with
  | nil => simp [searchPT, containsSub, beginsWith]
  | cons c rest ih =>
    by_cases hb : beginsWith "PT".data (c :: rest) = true
    · simp [searchPT, containsSub, hb]
    · simp only [Bool.not_eq_true] at hb
      simp [searchPT, containsSub, hb, ih]

/-- C6 (amended): parse_duration never fails and returns the sentinel
"N/A" exactly for strings containing no occurrence of "PT"; any string
containing "PT" yields a clock rendering (h:mm:ss when a positive hour
group is parsed, otherwise m:ss) with absent components defaulting to
zero, so malformed tails render as "0:00" rather than "N/A". -/
theorem parse_duration_sentinel (s : Str) :
    (parse_duration s = "N/A".data ↔ containsSub "PT".data s = false) ∧
    parse_duration "PT5M30S".data = "5:30".data ∧
    parse_duration "PT1H2M3S".data = "1:02:03".data ∧
    parse_duration "PT30S".data = "0:30".data ∧
    parse_duration "PTX".data = "0:00".data := by
  refine ⟨?_, by decide, by decide, by decide, by decide⟩
  constructor
  · intro hp
    rw [← searchPT_none_iff]
    cases hs : searchPT s with
    | none => rfl
    | some rest =>
      exfalso
      unfold parse_duration at hp
      rw [hs] at hp
      simp only [] at hp
      split at hp <;>
        (have hmem : (':' : Char) ∈ (['N', '/', 'A'] : Str) := by
           rw [← hp]; simp
         revert hmem; decide)
  · intro hc
    have hs : searchPT s = none := (searchPT_none_iff s).mpr hc
    unfold parse_duration
    rw [hs]

/-- C6 counterexample: "PTX" is not a valid ISO-8601 PT duration, yet
parse_duration returns "0:00" for it, not the sentinel "N/A". -/
theorem parse_duration_not_na_on_invalid :
    isoValidPT "PTX".data = false ∧ parse_duration "PTX".data ≠ "N/A".data := by
  exact ⟨by decide, by decide⟩

/-- C1 helper: the answers produced by the masking loop are the
accumulator followed by the newly blanked words. -/
theorem maskLoop_snd (bw : List Str) :
    ∀ (ws acc : List Str), (maskLoop bw ws acc).2 = acc ++ newBlanks bw ws acc := by
  intro ws
  induction ws with
  | nil => intro acc; simp [maskLoop, newBlanks]
  | cons w ws ih =>
    intro acc
    by_cases h : w ∈ bw ∧ w ∉ acc
    · simp only [maskLoop, newBlanks, if_pos h, ih]
      simp
    · simp only [maskLoop, newBlanks, if_neg h, ih]

/-- C1 helper: marking one more word as seen shortens the not-yet-seen
filter of a duplicate-free list by exactly one entry. -/
theorem filter_notin_cons_length (w : Str) (seen : List Str) :
    ∀ bw : List Str, bw.Nodup → w ∈ bw → w ∉ seen →
      (bw.filter (fun x => decide (x ∉ seen))).length =
        (bw.filter (fun x => decide (x ∉ seen ++ [w]))).length + 1 := by
  intro bw
  induction bw with
  | nil => intro _ hmem _; exact absurd hmem (List.not_mem_nil w)
  | cons b bs ih =>
    intro hnd hmem hws
    have hnd1 : b ∉ bs := (List.nodup_cons.mp hnd).1
    have hnd2 : bs.Nodup := (List.nodup_cons.mp hnd).2
    by_cases hwb : w = b
    · subst hwb
      have hb1 : decide (w ∉ seen) = true := by simpa using hws
      have hb2 : decide (w ∉ seen ++ [w]) = false := by simp
      rw [List.filter_cons, List.filter_cons, hb1, hb2]
      have hcong : bs.filter (fun x => decide (x ∉ seen)) =
          bs.filter (fun x => decide (x ∉ seen ++ [w])) := by
        apply List.filter_congr
        intro x hx
        have hxw : x ≠ w := fun he => hnd1 (he ▸ hx)
        simp [List.mem_append, hxw]
      rw [if_pos rfl, if_neg (by simp), List.length_cons, hcong]
    · have hw2 : w ∈ bs := by
        rcases List.mem_cons.mp hmem with h | h
        · exact absurd h hwb
        · exact h
      have hbeq : decide (b ∉ seen) = decide (b ∉ seen ++ [w]) := by
        have hbw : ¬b = w := fun he => hwb he.symm
        simp [List.mem_append, hbw]
      rw [List.filter_cons, List.filter_cons, ← hbeq]
      cases hbv : decide (b ∉ seen) with
      | false => simpa using ih hnd2 hw2 hws
      | true => simpa using ih hnd2 hw2 hws

/-- C1 helper: when the sampled words are duplicate-free and all occur in
the remaining words, the masking loop blanks each not-yet-seen sampled
word exactly once. -/
theorem newBlanks_length (bw : List Str) (hnd : bw.Nodup) :
    ∀ (ws seen : List Str), (∀ x ∈ bw, x ∉ seen → x ∈ ws) →
      (newBlanks bw ws seen).length =
        (bw.filter (fun x => decide (x ∉ seen))).length := by
  intro ws
  induction ws with
  | nil =>
    intro seen hcov
    have hnil : bw.filter (fun x => decide (x ∉ seen)) = [] := by
      apply List.filter_eq_nil_iff.mpr
      intro x hx
      have hx2 := hcov x hx
      simp only [List.not_mem_nil, imp_false, not_not] at hx2
      simp [hx2]
    rw [hnil]
    simp [newBlanks]
  | cons w ws ih =>
    intro seen hcov
    by_cases h : w ∈ bw ∧ w ∉ seen
    · have hcov2 : ∀ x ∈ bw, x ∉ seen ++ [w] → x ∈ ws := by
        intro x hx hxs
        have hxs1 : x ∉ seen := fun hc => hxs (List.mem_append.mpr (Or.inl hc))
        have hxw : x ≠ w := fun he =>
          hxs (List.mem_append.mpr (Or.inr (by simp [he])))
        rcases List.mem_cons.mp (hcov x hx hxs1) with he | hm
        · exact absurd he hxw
        · exact hm
      rw [show newBlanks bw (w :: ws) seen = w :: newBlanks bw ws (seen ++ [w])
          from by simp [newBlanks, h]]
      rw [List.length_cons, ih (seen ++ [w]) hcov2]
      rw [filter_notin_cons_length w seen bw hnd h.1 h.2]
    · have hcov2 : ∀ x ∈ bw, x ∉ seen → x ∈ ws := by
        intro x hx hxs
        rcases List.mem_cons.mp (hcov x hx hxs) with he | hm
        · exact absurd ⟨he ▸ hx, he ▸ hxs⟩ h
        · exact hm
      rw [show newBlanks bw (w :: ws) seen = newBlanks bw ws seen
          from by simp [newBlanks, h]]
      exact ih seen hcov2

/-- C1 helper: substituting the newly blanked words back into the masked
sequence reconstructs the original word sequence, provided no original
word is the placeholder token. -/
theorem fillBlanks_maskLoop (bw : List Str) :
    ∀ (ws acc : List Str), placeholder ∉ ws →
      fillBlanks (maskLoop bw ws acc).1 (newBlanks bw ws acc) = ws := by
  intro ws
  induction ws with
  | nil => intro acc _; simp [maskLoop, newBlanks, fillBlanks]
  | cons w ws ih =>
    intro acc hpl
    have hw : w ≠ placeholder := fun he => hpl (he ▸ List.mem_cons_self w ws)
    have hpl2 : placeholder ∉ ws := fun hc => hpl (List.mem_cons_of_mem w hc)
    by_cases h : w ∈ bw ∧ w ∉ acc
    · simp only [maskLoop, newBlanks, if_pos h]
      simp only [fillBlanks, if_pos rfl]
      rw [ih (acc ++ [w]) hpl2]
      simp
    · simp only [maskLoop, newBlanks, if_neg h]
      simp only [fillBlanks, if_neg hw]
      rw [ih acc hpl2]

/-- C1 (amended): for every sentence word list and every valid random
sample (a sub-multiset of the eligible words of size
min(2, eligibleCount)), when the eligible words are pairwise distinct and
no word equals the placeholder token, blank generation returns exactly
min(2, eligibleCount) answers, and substituting the answers, in order,
for the placeholder tokens of the masked sequence reconstructs the
sentence's whitespace-token sequence exactly; with repeated eligible
words the answer count can drop below min(2, eligibleCount). -/
theorem blank_generation_count_and_reconstruct
    (words sample : List Str)
    (hsub : List.Subperm sample (candidateWords words))
    (hlen : sample.length = min 2 (candidateWords words).length)
    (hnd : (candidateWords words).Nodup)
    (hpl : placeholder ∉ words) :
    ((generateBlanks words sample).2).length =
      min 2 (candidateWords words).length ∧
    fillBlanks (generateBlanks words sample).1 (generateBlanks words sample).2 =
      words := by
  have hsnd : sample.Nodup := by
    obtain ⟨l, hperm, hsl⟩ := hsub
    exact hperm.nodup_iff.mp (hsl.nodup hnd)
  have hcov : ∀ x ∈ sample, x ∉ ([] : List Str) → x ∈ words := by
    intro x hx _
    exact List.mem_of_mem_filter (hsub.subset hx)
  constructor
  · rw [generateBlanks, maskLoop_snd sample words [], List.nil_append]
    rw [newBlanks_length sample hsnd words [] hcov]
    have hfull : sample.filter (fun x => decide (x ∉ ([] : List Str))) = sample := by
      apply List.filter_eq_self.mpr
      intro a _
      simp
    rw [hfull]
    exact hlen
  · rw [generateBlanks, maskLoop_snd sample words [], List.nil_append]
    exact fillBlanks_maskLoop sample words [] hpl

/-- C1 witness: the amended statement applied to the two-word sentence
[ab, cd] with both eligible words sampled. -/
theorem blank_generation_count_and_reconstruct_witness :
    (List.Subperm ([['a','b'], ['c','d']] : List Str)
        (candidateWords [['a','b'], ['c','d']]) ∧
      ([['a','b'], ['c','d']] : List Str).length =
        min 2 (candidateWords [['a','b'], ['c','d']]).length ∧
      (candidateWords ([['a','b'], ['c','d']] : List Str)).Nodup ∧
      placeholder ∉ ([['a','b'], ['c','d']] : List Str)) ∧
    ((generateBlanks [['a','b'], ['c','d']] [['a','b'], ['c','d']]).2).length =
      min 2 (candidateWords [['a','b'], ['c','d']]).length ∧
    fillBlanks (generateBlanks [['a','b'], ['c','d']] [['a','b'], ['c','d']]).1
        (generateBlanks [['a','b'], ['c','d']] [['a','b'], ['c','d']]).2 =
      [['a','b'], ['c','d']] := by
  have hc : candidateWords ([['a','b'], ['c','d']] : List Str) =
      ([['a','b'], ['c','d']] : List Str) := by decide
  have hsub : List.Subperm ([['a','b'], ['c','d']] : List Str)
      (candidateWords [['a','b'], ['c','d']]) := by
    rw [hc]
  exact ⟨⟨hsub, by decide, by decide, by decide⟩,
    blank_generation_count_and_reconstruct [['a','b'], ['c','d']]
      [['a','b'], ['c','d']] hsub (by decide) (by decide) (by decide)⟩

/-- C1 counterexample: the sentence whose words are [aa, aa] has two
eligible words, and its only possible sample of size min(2,2) = 2 is
[aa, aa]; blank generation then returns a single answer, not
min(2, eligibleCount) = 2 as the claim states. -/
theorem blank_generation_duplicate_words :
    2 ≤ (candidateWords [['a','a'], ['a','a']]).length ∧
    List.Subperm ([['a','a'], ['a','a']] : List Str)
      (candidateWords [['a','a'], ['a','a']]) ∧
    ([['a','a'], ['a','a']] : List Str).length =
      min 2 (candidateWords [['a','a'], ['a','a']]).length ∧
    ((generateBlanks [['a','a'], ['a','a']] [['a','a'], ['a','a']]).2).length ≠
      min 2 (candidateWords [['a','a'], ['a','a']]).length := by
  have hc : candidateWords ([['a','a'], ['a','a']] : List Str) =
      ([['a','a'], ['a','a']] : List Str) := by decide
  refine ⟨by decide, ?_, by decide, by decide⟩
  rw [hc]

end KTube
